import Mathlib

/-!
Movie-app-Client: the API promo page and its button.

A shallow embedding of `MovieApp/src/Pages/ApiPromoPage.jsx` and
`MovieApp/src/components/Button.jsx`.

* JavaScript data (the demo record, the snippet catalog, props objects) is a
  small value type `JsValue`; objects are ordered lists of own properties.
* The host interfaces the page calls (`URL`, `URLSearchParams`, `JSON`,
  the clipboard, `scrollIntoView`) are modelled after their standards. The
  Unicode operation the URL parser applies to domains that are not plain
  ASCII runs on tables of the host and is a parameter.
* The component state (`useState`, `useRef`) and the host effects are an
  explicit world record; handlers are functions on it that can throw.
-/

namespace MovieApp

/-! ## JavaScript values -/

/-- The fragment of JavaScript values the page handles: `undefined`, `null`,
booleans, strings, arrays and plain objects (own properties in insertion
order). Numbers and functions do not occur in the data of the page. -/
inductive JsValue where
  | undefined : JsValue
  | null : JsValue
  | bool (b : Bool) : JsValue
  | str (s : String) : JsValue
  | arr (items : List JsValue) : JsValue
  | obj (members : List (String × JsValue)) : JsValue

/-- Own properties of a plain object, in insertion order. -/
abbrev JsObject := List (String × JsValue)

/-- Errors a JavaScript call can throw. -/
inductive JsError where
  | typeError (msg : String) : JsError
  | syntaxError (msg : String) : JsError
  deriving DecidableEq, Repr

/-- Own-property lookup in an ordered property list. -/
def ownGet {α : Type} : List (String × α) → String → Option α
  | [], _ => none
  | (k, v) :: rest, key => if k = key then some v else ownGet rest key

/-- Property write: an existing property keeps its position and takes the
new value, a new property is appended. -/
def ownSet {α : Type} : List (String × α) → String → α → List (String × α)
  | [], key, v => [(key, v)]
  | (k, w) :: rest, key, v =>
    if k = key then (k, v) :: rest else (k, w) :: ownSet rest key v

/-- Remove the property `key` (what a rest pattern leaves out). -/
def ownRemove {α : Type} : List (String × α) → String → List (String × α)
  | [], _ => []
  | (k, w) :: rest, key =>
    if k = key then ownRemove rest key else (k, w) :: ownRemove rest key

/-- Property read `o[key]` on own properties: `undefined` when absent. What a
plain object inherits from `Object.prototype` is not modelled; the page
reads its objects at their own keys. -/
def JsObject.get (o : JsObject) (key : String) : JsValue :=
  match ownGet o key with
  | none => .undefined
  | some v => v

/-- The call `Object.keys(o)`: own keys in insertion order (none of the
objects of the page has an integer-like key, which would sort first). -/
def Object.keys (o : JsObject) : List String := o.map Prod.fst

mutual
/-- The abstract operation `ToString` on the fragment. -/
def JsValue.toJsString : JsValue → String
  | .undefined => "undefined"
  | .null => "null"
  | .bool true => "true"
  | .bool false => "false"
  | .str s => s
  | .arr xs => JsValue.joinItems xs
  | .obj _ => "[object Object]"
/-- The call `Array.prototype.join` with the default separator: `undefined`
and `null` elements contribute the empty string. -/
def JsValue.joinItems : List JsValue → String
  | [] => ""
  | [.undefined] => ""
  | [.null] => ""
  | [x] => JsValue.toJsString x
  | .undefined :: y :: rest => "," ++ JsValue.joinItems (y :: rest)
  | .null :: y :: rest => "," ++ JsValue.joinItems (y :: rest)
  | x :: y :: rest => JsValue.toJsString x ++ "," ++ JsValue.joinItems (y :: rest)
end

/-! ## JSON.stringify -/

/-- Lower-case hexadecimal digit. -/
def hexDigit (n : Nat) : Char :=
  if n < 10 then Char.ofNat (48 + n) else Char.ofNat (87 + n)

/-- One code point of `QuoteJSONString`. -/
def quoteJSONChar (c : Char) : List Char :=
  if c = '\x08' then ['\\', 'b']
  else if c = '\t' then ['\\', 't']
  else if c = '\n' then ['\\', 'n']
  else if c = '\x0c' then ['\\', 'f']
  else if c = '\r' then ['\\', 'r']
  else if c = '"' then ['\\', '"']
  else if c = '\\' then ['\\', '\\']
  else if c.toNat < 32 then
    ['\\', 'u', '0', '0', hexDigit (c.toNat / 16), hexDigit (c.toNat % 16)]
  else [c]

/-- The abstract operation `QuoteJSONString`. -/
def quoteJSONString (s : String) : String :=
  String.mk ('"' :: (s.data.flatMap quoteJSONChar ++ ['"']))

/-- Join with a separator. -/
def joinWith (sep : String) : List String → String
  | [] => ""
  | [x] => x
  | x :: y :: rest => x ++ sep ++ joinWith sep (y :: rest)

/-- The closing part shared by `SerializeJSONObject` and
`SerializeJSONArray`: wrap the serialized parts in the brackets. -/
def wrapJSON (opening closing gap stepback : String) (parts : List String) : String :=
  if parts.isEmpty then opening ++ closing
  else if gap = "" then opening ++ joinWith "," parts ++ closing
  else
    opening ++ "\n" ++ (stepback ++ gap) ++ joinWith (",\n" ++ (stepback ++ gap)) parts
      ++ "\n" ++ stepback ++ closing

mutual
/-- The abstract operation `SerializeJSONProperty` (no replacer, no `toJSON`):
`none` stands for `undefined`. -/
def serializeJSONProperty (gap indent : String) : JsValue → Option String
  | .undefined => none
  | .null => some "null"
  | .bool true => some "true"
  | .bool false => some "false"
  | .str s => some (quoteJSONString s)
  | .arr xs => some (wrapJSON "[" "]" gap indent (serializeJSONItems gap (indent ++ gap) xs))
  | .obj ms => some (wrapJSON "\x7b" "\x7d" gap indent (serializeJSONMembers gap (indent ++ gap) ms))
/-- Elements of an array: an `undefined` element is written `null`. -/
def serializeJSONItems (gap indent : String) : List JsValue → List String
  | [] => []
  | x :: xs =>
    (match serializeJSONProperty gap indent x with
      | none => "null"
      | some t => t) :: serializeJSONItems gap indent xs
/-- Members of an object: a property whose value is `undefined` is left out. -/
def serializeJSONMembers (gap indent : String) : List (String × JsValue) → List String
  | [] => []
  | (k, v) :: ms =>
    match serializeJSONProperty gap indent v with
    | none => serializeJSONMembers gap indent ms
    | some t =>
      (quoteJSONString k ++ ":" ++ (if gap = "" then "" else " ") ++ t)
        :: serializeJSONMembers gap indent ms
end

/-- The call `JSON.stringify(value, null, space)` with a numeric `space`: the
gap is `min(10, space)` spaces; the result is `none` (`undefined`) for
`undefined`. -/
def JSON.stringify (value : JsValue) (space : Nat) : Option String :=
  serializeJSONProperty (String.mk (List.replicate (min 10 space) ' ')) "" value

/-! ## JSON.parse -/

/-- JSON white space: tab, line feed, carriage return, space. -/
def isJSONWhitespace (c : Char) : Bool :=
  c = '\t' || c = '\n' || c = '\r' || c = ' '

/-- Drop leading JSON white space. -/
def skipJSONWhitespace : List Char → List Char
  | [] => []
  | c :: cs => if isJSONWhitespace c then skipJSONWhitespace cs else c :: cs

/-- Value of a hexadecimal digit, either case. -/
def hexValue (c : Char) : Option Nat :=
  if '0' ≤ c ∧ c ≤ '9' then some (c.toNat - 48)
  else if 'a' ≤ c ∧ c ≤ 'f' then some (c.toNat - 87)
  else if 'A' ≤ c ∧ c ≤ 'F' then some (c.toNat - 55)
  else none

/-- Four hexadecimal digits as a code unit. -/
def hex4 (a b c d : Char) : Option Nat :=
  match hexValue a, hexValue b, hexValue c, hexValue d with
  | some w, some x, some y, some z => some (((w * 16 + x) * 16 + y) * 16 + z)
  | _, _, _, _ => none

/-- Append the pending high surrogate, if any, as U+FFFD: a lone surrogate
has no counterpart in a `String`. -/
def flushSurrogate (pending : Option Nat) (acc : List Char) : List Char :=
  match pending with
  | none => acc
  | some _ => '\uFFFD' :: acc

/-- One `\u` escape with code unit `u`, after a possibly pending high
surrogate: the new pending surrogate and the accumulator. -/
def pushCodeUnit (pending : Option Nat) (u : Nat) (acc : List Char) :
    Option Nat × List Char :=
  if 0xD800 ≤ u ∧ u < 0xDC00 then (some u, flushSurrogate pending acc)
  else if 0xDC00 ≤ u ∧ u < 0xE000 then
    match pending with
    | some hi => (none, Char.ofNat (0x10000 + (hi - 0xD800) * 0x400 + (u - 0xDC00)) :: acc)
    | none => (none, '\uFFFD' :: acc)
  else (none, Char.ofNat u :: flushSurrogate pending acc)

/-- The characters of a JSON string after its opening quote, up to and
including the closing quote: the decoded characters and the rest of the
input. The accumulator holds the decoded characters in reverse. A surrogate
pair written as two `\u` escapes is one character. -/
def parseJSONChars : Option Nat → List Char → List Char → Option (List Char × List Char)
  | _, [], _ => none
  | pending, c :: rest, acc =>
    if c = '"' then some ((flushSurrogate pending acc).reverse, rest)
    else if c = '\\' then
      match rest with
      | [] => none
      | e :: rest2 =>
        if e = 'u' then
          match rest2 with
          | h1 :: h2 :: h3 :: h4 :: rest3 =>
            match hex4 h1 h2 h3 h4 with
            | none => none
            | some u =>
              parseJSONChars (pushCodeUnit pending u acc).1 rest3 (pushCodeUnit pending u acc).2
          | _ => none
        else if e = '"' then parseJSONChars none rest2 ('"' :: flushSurrogate pending acc)
        else if e = '\\' then parseJSONChars none rest2 ('\\' :: flushSurrogate pending acc)
        else if e = '/' then parseJSONChars none rest2 ('/' :: flushSurrogate pending acc)
        else if e = 'b' then parseJSONChars none rest2 ('\x08' :: flushSurrogate pending acc)
        else if e = 'f' then parseJSONChars none rest2 ('\x0c' :: flushSurrogate pending acc)
        else if e = 'n' then parseJSONChars none rest2 ('\n' :: flushSurrogate pending acc)
        else if e = 'r' then parseJSONChars none rest2 ('\r' :: flushSurrogate pending acc)
        else if e = 't' then parseJSONChars none rest2 ('\t' :: flushSurrogate pending acc)
        else none
    else if c.toNat < 32 then none
    else parseJSONChars none rest (c :: flushSurrogate pending acc)

mutual
/-- A JSON value with leading white space skipped; `fuel` bounds the nesting
and the number of elements read. -/
def parseJSONValue : Nat → List Char → Option (JsValue × List Char)
  | 0, _ => none
  | fuel + 1, cs =>
    match skipJSONWhitespace cs with
    | 'n' :: 'u' :: 'l' :: 'l' :: rest => some (.null, rest)
    | 't' :: 'r' :: 'u' :: 'e' :: rest => some (.bool true, rest)
    | 'f' :: 'a' :: 'l' :: 's' :: 'e' :: rest => some (.bool false, rest)
    | '"' :: rest =>
      match parseJSONChars none rest [] with
      | none => none
      | some (chars, rest2) => some (.str (String.mk chars), rest2)
    | '[' :: rest =>
      match skipJSONWhitespace rest with
      | ']' :: rest2 => some (.arr [], rest2)
      | _ =>
        match parseJSONItems fuel rest with
        | none => none
        | some (items, rest2) => some (.arr items, rest2)
    | '\x7b' :: rest =>
      match skipJSONWhitespace rest with
      | '\x7d' :: rest2 => some (.obj [], rest2)
      | _ =>
        match parseJSONMembers fuel rest [] with
        | none => none
        | some (ms, rest2) => some (.obj ms, rest2)
    | _ => none
/-- The elements of a non-empty array, up to and including the closing
bracket. -/
def parseJSONItems : Nat → List Char → Option (List JsValue × List Char)
  | 0, _ => none
  | fuel + 1, cs =>
    match parseJSONValue fuel cs with
    | none => none
    | some (v, rest) =>
      match skipJSONWhitespace rest with
      | ']' :: rest2 => some ([v], rest2)
      | ',' :: rest2 =>
        match parseJSONItems fuel rest2 with
        | none => none
        | some (vs, rest3) => some (v :: vs, rest3)
      | _ => none
/-- The members of a non-empty object, up to and including the closing
brace; a duplicate key keeps its first position and takes the last value. -/
def parseJSONMembers : Nat → List Char → List (String × JsValue) →
    Option (List (String × JsValue) × List Char)
  | 0, _, _ => none
  | fuel + 1, cs, acc =>
    match skipJSONWhitespace cs with
    | '"' :: rest =>
      match parseJSONChars none rest [] with
      | none => none
      | some (key, rest2) =>
        match skipJSONWhitespace rest2 with
        | ':' :: rest3 =>
          match parseJSONValue fuel rest3 with
          | none => none
          | some (v, rest4) =>
            match skipJSONWhitespace rest4 with
            | '\x7d' :: rest5 => some (ownSet acc (String.mk key) v, rest5)
            | ',' :: rest5 => parseJSONMembers fuel rest5 (ownSet acc (String.mk key) v)
            | _ => none
        | _ => none
    | _ => none
end

/-- The call `JSON.parse(text)` on the fragment (number literals are outside
it): the value, or a `SyntaxError`. A value never needs more fuel than it
has characters, so the length of the text is enough. -/
def JSON.parse (text : String) : Except JsError JsValue :=
  match parseJSONValue (text.length + 1) text.data with
  | none => .error (.syntaxError "JSON.parse")
  | some (v, rest) =>
    match skipJSONWhitespace rest with
    | [] => .ok v
    | _ => .error (.syntaxError "JSON.parse")

/-! ## The static data of the page -/

/-- The constant `demoMovie`. -/
def demoMovie : JsObject :=
  [ ("imdbId", .str "tt6443346"),
    ("title", .str "Black Adam"),
    ("releaseDate", .str "2022-10-19"),
    ("trailerLink", .str "https://www.youtube.com/watch?v=JaV7mmc9HGw"),
    ("poster", .str "https://image.tmdb.org/t/p/w500/pFlaoHTZeyNkG83vxsAJiGzfSsa.jpg"),
    ("genres", .arr [.str "Fantasy", .str "Action", .str "Science Fiction"]),
    ("backdrops", .arr
      [ .str "https://image.tmdb.org/t/p/original/bQXAqRx2Fgc46uCVWgoPz5L5Dtr.jpg",
        .str "https://image.tmdb.org/t/p/original/zplntIhzXyBiXFYWReETxh0uyFF.jpg" ]) ]

/-- The constant `apiBaseUrl`. -/
def apiBaseUrl : String := "https://movie-api-spring-boot-3.onrender.com/api/v1/movies"

/-- The constant `usageSnippets`: each template literal with `apiBaseUrl`
interpolated. -/
def usageSnippets : JsObject :=
  [ ("Node.js", .str (
      "// Using fetch in Node.js (requires node-fetch package)\n"
      ++ "import fetch from \x27node-fetch\x27;\n"
      ++ "\n"
      ++ "async function fetchMovies() \x7b\n"
      ++ "  const res = await fetch(\x27"
      ++ apiBaseUrl
      ++ "\x27);\n"
      ++ "  const data = await res.json();\n"
      ++ "  console.log(data);\n"
      ++ "\x7d\n"
      ++ "\n"
      ++ "fetchMovies();")),
    ("Java", .str (
      "// Using Java with HttpClient (Java 11+)\n"
      ++ "import java.net.URI;\n"
      ++ "import java.net.http.HttpClient;\n"
      ++ "import java.net.http.HttpRequest;\n"
      ++ "import java.net.http.HttpResponse;\n"
      ++ "\n"
      ++ "public class ApiExample \x7b\n"
      ++ "  public static void main(String[] args) throws Exception \x7b\n"
      ++ "    HttpClient client = HttpClient.newHttpClient();\n"
      ++ "    HttpRequest request = HttpRequest.newBuilder()\n"
      ++ "      .uri(URI.create(\""
      ++ apiBaseUrl
      ++ "\"))\n"
      ++ "      .build();\n"
      ++ "\n"
      ++ "    HttpResponse<String> response = client.send(request, HttpResponse.BodyHandlers.ofString());\n"
      ++ "    System.out.println(response.body());\n"
      ++ "  \x7d\n"
      ++ "\x7d")),
    ("Django", .str (
      "# Using requests in Python (for Django or general)\n"
      ++ "import requests\n"
      ++ "\n"
      ++ "response = requests.get(\""
      ++ apiBaseUrl
      ++ "\")\n"
      ++ "print(response.json())")),
    ("PHP", .str (
      "<?php\n"
      ++ "// Using file_get_contents\n"
      ++ "$response = file_get_contents(\x27"
      ++ apiBaseUrl
      ++ "\x27);\n"
      ++ "$data = json_decode($response, true);\n"
      ++ "print_r($data);\n"
      ++ "?>")),
    ("Go", .str (
      "// Using Go net/http package\n"
      ++ "package main\n"
      ++ "\n"
      ++ "import (\n"
      ++ "  \"fmt\"\n"
      ++ "  \"io/ioutil\"\n"
      ++ "  \"net/http\"\n"
      ++ ")\n"
      ++ "\n"
      ++ "func main() \x7b\n"
      ++ "  resp, err := http.Get(\""
      ++ apiBaseUrl
      ++ "\")\n"
      ++ "  if err != nil \x7b\n"
      ++ "    panic(err)\n"
      ++ "  \x7d\n"
      ++ "  defer resp.Body.Close()\n"
      ++ "\n"
      ++ "  body, _ := ioutil.ReadAll(resp.Body)\n"
      ++ "  fmt.Println(string(body))\n"
      ++ "\x7d")) ]

/-! ## UTF-8 and percent-encoding (Encoding and URL standards) -/

/-- UTF-8 encoding of one scalar value, as a list of bytes. -/
def utf8EncodeChar (c : Char) : List Nat :=
  let n := c.toNat
  if n < 0x80 then [n]
  else if n < 0x800 then [0xC0 + n / 0x40, 0x80 + n % 0x40]
  else if n < 0x10000 then [0xE0 + n / 0x1000, 0x80 + n / 0x40 % 0x40, 0x80 + n % 0x40]
  else [0xF0 + n / 0x40000, 0x80 + n / 0x1000 % 0x40, 0x80 + n / 0x40 % 0x40, 0x80 + n % 0x40]

/-- UTF-8 encoding of a sequence of scalar values. -/
def utf8Encode (cs : List Char) : List Nat := cs.flatMap utf8EncodeChar

/-- State of the UTF-8 decoder of the Encoding standard. -/
structure Utf8State where
  codePoint : Nat
  bytesSeen : Nat
  bytesNeeded : Nat
  lower : Nat
  upper : Nat
  deriving DecidableEq, Repr

/-- The initial decoder state. -/
def Utf8State.start : Utf8State :=
  { codePoint := 0, bytesSeen := 0, bytesNeeded := 0, lower := 0x80, upper := 0xBF }

/-- A byte read when no bytes are needed: the next state and the output. -/
def utf8Lead (b : Nat) : Utf8State × List Char :=
  if b ≤ 0x7F then (Utf8State.start, [Char.ofNat b])
  else if 0xC2 ≤ b ∧ b ≤ 0xDF then
    ({ Utf8State.start with bytesNeeded := 1, codePoint := b % 0x20 }, [])
  else if 0xE0 ≤ b ∧ b ≤ 0xEF then
    ({ codePoint := b % 0x10, bytesSeen := 0, bytesNeeded := 2,
       lower := if b = 0xE0 then 0xA0 else 0x80,
       upper := if b = 0xED then 0x9F else 0xBF }, [])
  else if 0xF0 ≤ b ∧ b ≤ 0xF4 then
    ({ codePoint := b % 0x08, bytesSeen := 0, bytesNeeded := 3,
       lower := if b = 0xF0 then 0x90 else 0x80,
       upper := if b = 0xF4 then 0x8F else 0xBF }, [])
  else (Utf8State.start, ['�'])

/-- The decoder "UTF-8 decode without BOM": malformed input yields U+FFFD.
The accumulator holds the output in reverse. -/
def utf8DecodeFrom : Utf8State → List Nat → List Char → List Char
  | st, [], acc => if st.bytesNeeded = 0 then acc.reverse else ('�' :: acc).reverse
  | st, b :: rest, acc =>
    if st.bytesNeeded = 0 then
      utf8DecodeFrom (utf8Lead b).1 rest ((utf8Lead b).2.reverse ++ acc)
    else if b < st.lower ∨ st.upper < b then
      utf8DecodeFrom (utf8Lead b).1 rest ((utf8Lead b).2.reverse ++ '�' :: acc)
    else if st.bytesSeen + 1 = st.bytesNeeded then
      utf8DecodeFrom Utf8State.start rest (Char.ofNat (st.codePoint * 0x40 + b % 0x40) :: acc)
    else
      utf8DecodeFrom
        { codePoint := st.codePoint * 0x40 + b % 0x40, bytesSeen := st.bytesSeen + 1,
          bytesNeeded := st.bytesNeeded, lower := 0x80, upper := 0xBF } rest acc

/-- The decoder started in its initial state. -/
def utf8Decode (bs : List Nat) : List Char := utf8DecodeFrom Utf8State.start bs []

/-- Value of a byte that is an ASCII hexadecimal digit. -/
def hexByteValue (b : Nat) : Option Nat :=
  if 0x30 ≤ b ∧ b ≤ 0x39 then some (b - 0x30)
  else if 0x41 ≤ b ∧ b ≤ 0x46 then some (b - 0x37)
  else if 0x61 ≤ b ∧ b ≤ 0x66 then some (b - 0x57)
  else none

/-- Percent-decode a byte sequence: `%` followed by two hexadecimal digits is
one byte, every other byte stands for itself. -/
def percentDecode : List Nat → List Nat
  | [] => []
  | b :: h :: l :: rest =>
    if b = 0x25 then
      match hexByteValue h, hexByteValue l with
      | some x, some y => (x * 16 + y) :: percentDecode rest
      | _, _ => b :: percentDecode (h :: l :: rest)
    else b :: percentDecode (h :: l :: rest)
  | b :: rest => b :: percentDecode rest

/-- Upper-case hexadecimal digit. -/
def upperHexDigit (n : Nat) : Char :=
  if n < 10 then Char.ofNat (48 + n) else Char.ofNat (55 + n)

/-- Percent-encode one byte. -/
def percentEncodeByte (b : Nat) : List Char :=
  ['%', upperHexDigit (b / 16), upperHexDigit (b % 16)]

/-- The query percent-encode set, and for a special scheme the
special-query percent-encode set (which adds the apostrophe). -/
def inQueryPercentEncodeSet (special : Bool) (c : Char) : Bool :=
  c.toNat ≤ 0x1F || 0x7E < c.toNat || c = ' ' || c = '"' || c = '#' || c = '<' || c = '>'
    || (special && c = '\x27')

/-- Percent-encode a query after the query percent-encode set (UTF-8). -/
def percentEncodeQuery (special : Bool) (cs : List Char) : List Char :=
  cs.flatMap fun c =>
    if inQueryPercentEncodeSet special c then (utf8EncodeChar c).flatMap percentEncodeByte
    else [c]

/-! ## The URL constructor (URL standard) -/

/-- A host of a URL record: a domain, an IPv4 address (a 32-bit number), an
IPv6 address (eight 16-bit pieces), an opaque host, or the empty host. -/
inductive Host where
  | domain (name : String) : Host
  | ipv4 (address : Nat) : Host
  | ipv6 (pieces : List Nat) : Host
  | opaqueHost (text : String) : Host
  | empty : Host
  deriving DecidableEq, Repr

/-- The operation "Unicode ToASCII" of UTS #46 with the flags the URL standard
fixes (no hyphen check, bidi and joiner checks, no STD3 rules, nontransitional,
no DNS length check), `none` being failure. It runs on the Unicode tables of
the host (IDNA mapping, normalization, character properties), which are not
part of the repository, so the parser takes it as a parameter. -/
abbrev UnicodeToASCII := List Char → Option (List Char)

/-- A parsed URL, as far as the page depends on it: the scheme, the host and
the query (`none` is the null query). The path and the fragment, which never
make parsing fail and which the page does not read, are not kept. -/
structure URL where
  scheme : String
  host : Option Host
  query : Option String
  deriving DecidableEq, Repr

/-- C0 control or space. -/
def isC0ControlOrSpace (c : Char) : Bool := c.toNat ≤ 0x20

/-- ASCII tab or newline. -/
def isASCIITabOrNewline (c : Char) : Bool := c = '\t' || c = '\n' || c = '\r'

/-- ASCII letter. -/
def isASCIIAlpha (c : Char) : Bool :=
  (0x41 ≤ c.toNat && c.toNat ≤ 0x5A) || (0x61 ≤ c.toNat && c.toNat ≤ 0x7A)

/-- ASCII digit. -/
def isASCIIDigit (c : Char) : Bool := 0x30 ≤ c.toNat && c.toNat ≤ 0x39

/-- ASCII lower-casing of one character. -/
def asciiLower (c : Char) : Char :=
  if 0x41 ≤ c.toNat ∧ c.toNat ≤ 0x5A then Char.ofNat (c.toNat + 0x20) else c

/-- The first step of the basic URL parser: strip leading and trailing C0
control or space, then remove every ASCII tab or newline. -/
def cleanURLInput (cs : List Char) : List Char :=
  (((cs.dropWhile isC0ControlOrSpace).reverse.dropWhile isC0ControlOrSpace).reverse).filter
    fun c => !isASCIITabOrNewline c

/-- The scheme state: characters up to the colon; `none` when a character
that cannot be in a scheme comes first. The scheme is lower-cased. -/
def parseSchemeRest : List Char → List Char → Option (List Char × List Char)
  | [], _ => none
  | c :: cs, acc =>
    if c = ':' then some (acc.reverse, cs)
    else if isASCIIAlpha c || isASCIIDigit c || c = '+' || c = '-' || c = '.' then
      parseSchemeRest cs (asciiLower c :: acc)
    else none

/-- The scheme start and scheme states with no base URL: the scheme and what
follows its colon. -/
def parseScheme : List Char → Option (List Char × List Char)
  | [] => none
  | c :: cs => if isASCIIAlpha c then parseSchemeRest cs [asciiLower c] else none

/-- Special schemes. -/
def isSpecialScheme (scheme : String) : Bool :=
  scheme = "ftp" || scheme = "file" || scheme = "http" || scheme = "https"
    || scheme = "ws" || scheme = "wss"

/-- Forbidden host code points. -/
def isForbiddenHostCodePoint (c : Char) : Bool :=
  c.toNat = 0 || c = '\t' || c = '\n' || c = '\r' || c = ' ' || c = '#' || c = '/'
    || c = ':' || c = '<' || c = '>' || c = '?' || c = '@' || c = '[' || c = '\\'
    || c = ']' || c = '^' || c = '|'

/-- Forbidden domain code points. -/
def isForbiddenDomainCodePoint (c : Char) : Bool :=
  isForbiddenHostCodePoint c || c.toNat ≤ 0x1F || c = '%' || c.toNat = 0x7F

/-- Strictly split a string on a separator. -/
def strictSplit (sep : Char) : List Char → List Char → List (List Char)
  | [], acc => [acc.reverse]
  | c :: cs, acc =>
    if c = sep then acc.reverse :: strictSplit sep cs [] else strictSplit sep cs (c :: acc)

/-- Does the label start with an ASCII case-insensitive match for `xn--`. -/
def isPunycodeLabel (label : List Char) : Bool :=
  (label.take 4).map asciiLower = ['x', 'n', '-', '-']

/-- The domains on which, by the note of the URL standard, Unicode ToASCII is
ASCII lower-casing: ASCII strings none of whose labels starts with `xn--`. -/
def isPlainASCIIDomain (domain : List Char) : Bool :=
  domain.all (fun c => c.toNat < 0x80)
    && (strictSplit '.' domain []).all fun label => !isPunycodeLabel label

/-- The operation "domain to ASCII" (not strict): Unicode ToASCII, which on a
plain ASCII domain is lower-casing; failure and the empty result are failure. -/
def domainToASCII (unicodeToASCII : UnicodeToASCII) (domain : List Char) :
    Option (List Char) :=
  match (if isPlainASCIIDomain domain then some (domain.map asciiLower)
         else unicodeToASCII domain) with
  | none => none
  | some result => if result.isEmpty then none else some result

/-- Value of a digit in the given radix. -/
def digitValue (radix : Nat) (c : Char) : Option Nat :=
  match hexValue c with
  | none => none
  | some d => if d < radix then some d else none

/-- Value of a digit string in the given radix (0 for the empty string);
`none` when a character is no digit of the radix. -/
def radixValue (radix : Nat) : List Char → Nat → Option Nat
  | [], n => some n
  | c :: cs, n =>
    match digitValue radix c with
    | none => none
    | some d => radixValue radix cs (n * radix + d)

/-- The IPv4 number parser: `0x` or `0X` starts a hexadecimal number, another
leading `0` followed by something an octal one. -/
def parseIPv4Number (input : List Char) : Option Nat :=
  match input with
  | [] => none
  | [c] => radixValue 10 [c] 0
  | a :: b :: rest =>
    if a = '0' ∧ (b = 'x' ∨ b = 'X') then radixValue 16 rest 0
    else if a = '0' then radixValue 8 (b :: rest) 0
    else radixValue 10 (a :: b :: rest) 0

/-- The ends-in-a-number checker. -/
def endsInANumber (input : List Char) : Bool :=
  let parts := strictSplit '.' input []
  if parts.getLast? = some [] ∧ parts.length = 1 then false
  else
    match (if parts.getLast? = some [] then parts.dropLast else parts).getLast? with
    | none => false
    | some last =>
      (!last.isEmpty && last.all isASCIIDigit) || (parseIPv4Number last).isSome

/-- All the numbers of the parts, or failure when one part is no number. -/
def parseIPv4Numbers : List (List Char) → Option (List Nat)
  | [] => some []
  | part :: rest =>
    match parseIPv4Number part, parseIPv4Numbers rest with
    | some n, some ns => some (n :: ns)
    | _, _ => none

/-- The value of an IPv4 address from its numbers: the last number fills the
low bytes, the others are the leading bytes. -/
def ipv4Value : List Nat → Nat → Nat
  | [], _ => 0
  | [last], _ => last
  | n :: rest, counter => n * 256 ^ (3 - counter) + ipv4Value rest (counter + 1)

/-- The IPv4 parser. -/
def parseIPv4 (input : List Char) : Option Nat :=
  let parts := strictSplit '.' input []
  let parts := if parts.getLast? = some [] ∧ 1 < parts.length then parts.dropLast else parts
  if 4 < parts.length then none
  else
    match parseIPv4Numbers parts with
    | none => none
    | some numbers =>
      match numbers.getLast? with
      | none => none
      | some last =>
        if numbers.dropLast.any (fun n => decide (255 < n)) then none
        else if 256 ^ (5 - numbers.length) ≤ last then none
        else some (ipv4Value numbers 0)

/-- Up to `count` hexadecimal digits: their value, how many were read, and
the rest. -/
def readHexDigits : Nat → List Char → Nat → Nat → Nat × Nat × List Char
  | 0, cs, value, length => (value, length, cs)
  | _ + 1, [], value, length => (value, length, [])
  | count + 1, c :: cs, value, length =>
    match hexValue c with
    | some d => readHexDigits count cs (value * 0x10 + d) (length + 1)
    | none => (value, length, c :: cs)

/-- One number of the dotted part of an IPv6 address: ASCII digits, no leading
zero before another digit, at most 255. -/
def parseIPv4Piece (part : List Char) : Option Nat :=
  match part with
  | [] => none
  | c :: rest =>
    if !(c :: rest).all isASCIIDigit then none
    else if c = '0' ∧ !rest.isEmpty then none
    else
      match radixValue 10 (c :: rest) 0 with
      | none => none
      | some n => if 255 < n then none else some n

/-- The dotted part that ends an IPv6 address: exactly four numbers separated
by dots, run to the end of the input; the two pieces they make. -/
def parseIPv6Dotted (input : List Char) : Option (Nat × Nat) :=
  match (strictSplit '.' input []).map parseIPv4Piece with
  | [some a, some b, some c, some d] => some (a * 0x100 + b, c * 0x100 + d)
  | _ => none

/-- The main loop of the IPv6 parser. `pieces` holds the pieces read so far in
reverse, its length being the piece index; `compress` is the piece index
after `::`. Each round takes at least one character, `fuel` bounds the rounds. -/
def parseIPv6Loop : Nat → List Char → List Nat → Option Nat → Option (List Nat × Option Nat)
  | 0, _, _, _ => none
  | _ + 1, [], pieces, compress => some (pieces.reverse, compress)
  | fuel + 1, c :: rest, pieces, compress =>
    if pieces.length = 8 then none
    else if c = ':' then
      match compress with
      | some _ => none
      | none => parseIPv6Loop fuel rest (0 :: pieces) (some (pieces.length + 1))
    else
      match readHexDigits 4 (c :: rest) 0 0 with
      | (value, length, after) =>
        match after with
        | [] => some ((value :: pieces).reverse, compress)
        | d :: after2 =>
          if d = '.' then
            if length = 0 then none
            else if 6 < pieces.length then none
            else
              match parseIPv6Dotted (c :: rest) with
              | none => none
              | some (high, low) => some ((low :: high :: pieces).reverse, compress)
          else if d = ':' then
            if after2.isEmpty then none
            else parseIPv6Loop fuel after2 (value :: pieces) compress
          else none

/-- The IPv6 parser: the eight pieces of the address. A leading colon must
start `::`; the pieces after `::` move to the end; without `::` there must be
eight pieces. -/
def parseIPv6 (input : List Char) : Option (List Nat) :=
  let start : Option (List Char × List Nat × Option Nat) :=
    match input with
    | ':' :: ':' :: rest => some (rest, [0], some 1)
    | ':' :: _ => none
    | _ => some (input, [], none)
  match start with
  | none => none
  | some (rest, pieces, compress) =>
    match parseIPv6Loop (rest.length + 1) rest pieces compress with
    | none => none
    | some (read, some mark) =>
      some (read.take mark ++ List.replicate (8 - read.length) 0 ++ read.drop mark)
    | some (read, none) => if read.length = 8 then some read else none

/-- The C0 control percent-encode set. -/
def inC0ControlPercentEncodeSet (c : Char) : Bool := c.toNat ≤ 0x1F || 0x7E < c.toNat

/-- The opaque-host parser: failure on a forbidden host code point, else the
input percent-encoded after the C0 control percent-encode set. -/
def parseOpaqueHost (input : List Char) : Option Host :=
  if input.any isForbiddenHostCodePoint then none
  else if input.isEmpty then some .empty
  else
    some (.opaqueHost (String.mk (input.flatMap fun c =>
      if inC0ControlPercentEncodeSet c then (utf8EncodeChar c).flatMap percentEncodeByte
      else [c])))

/-- The host parser. A host in brackets is an IPv6 address; an opaque host
goes to the opaque-host parser; otherwise the input is percent-decoded and
UTF-8 decoded, taken through domain to ASCII, checked for forbidden domain code
points, and parsed as an IPv4 address when it ends in a number. -/
def parseHost (unicodeToASCII : UnicodeToASCII) (isOpaque : Bool) (input : List Char) :
    Option Host :=
  match input with
  | '[' :: inner =>
    if input.getLast? = some ']' then
      match parseIPv6 inner.dropLast with
      | none => none
      | some pieces => some (.ipv6 pieces)
    else none
  | _ =>
    if isOpaque then parseOpaqueHost input
    else
      match domainToASCII unicodeToASCII (utf8Decode (percentDecode (utf8Encode input))) with
      | none => none
      | some asciiDomain =>
        if asciiDomain.any isForbiddenDomainCodePoint then none
        else if endsInANumber asciiDomain then
          match parseIPv4 asciiDomain with
          | none => none
          | some address => some (.ipv4 address)
        else some (.domain (String.mk asciiDomain))

/-- The part of the authority after its last `@`, and whether an `@` was
seen (what precedes it is the credentials). -/
def afterCredentials : List Char → List Char → Bool → List Char × Bool
  | [], acc, seen => (acc.reverse, seen)
  | c :: cs, acc, seen =>
    if c = '@' then afterCredentials cs [] true else afterCredentials cs (c :: acc) seen

/-- The host state: the host text up to the first colon outside brackets,
and the port text after it when there is one. -/
def splitHostPort : Bool → List Char → List Char → List Char × Option (List Char)
  | _, [], acc => (acc.reverse, none)
  | inside, c :: cs, acc =>
    if c = ':' ∧ inside = false then (acc.reverse, some cs)
    else splitHostPort (if c = '[' then true else if c = ']' then false else inside) cs (c :: acc)

/-- Decimal value of a digit string. -/
def decimalValue (cs : List Char) : Nat :=
  cs.foldl (fun n c => n * 10 + (c.toNat - 48)) 0

/-- The port state: only digits, and a value of at most 65535. -/
def portOk (cs : List Char) : Bool :=
  cs.all isASCIIDigit && decide (decimalValue cs ≤ 65535)

/-- The authority, host and port states on the text of the authority. -/
def parseAuthority (unicodeToASCII : UnicodeToASCII) (special : Bool)
    (authority : List Char) : Option Host :=
  match afterCredentials authority [] false with
  | (hostPort, atSignSeen) =>
    if atSignSeen && hostPort.isEmpty then none
    else
      match splitHostPort false hostPort [] with
      | (hostText, some portText) =>
        if hostText.isEmpty then none
        else if portOk portText then parseHost unicodeToASCII (!special) hostText
        else none
      | (hostText, none) =>
        if special && hostText.isEmpty then none
        else parseHost unicodeToASCII (!special) hostText

/-- Is the character one that ends the authority. -/
def endsAuthority (special : Bool) (c : Char) : Bool :=
  c = '/' || c = '?' || c = '#' || (special && c = '\\')

/-- Is the character a slash or, for the special schemes, a backslash. -/
def isSlash (c : Char) : Bool := c = '/' || c = '\\'

/-- A Windows drive letter: a letter followed by a colon or a bar. -/
def isWindowsDriveLetter (cs : List Char) : Bool :=
  match cs with
  | [a, b] => isASCIIAlpha a && (b = ':' || b = '|')
  | _ => false

/-- The query state: after the path, which runs to the first `?` or `#`, a
`?` starts the query, which runs to the first `#` and is percent-encoded. -/
def parseQuery (special : Bool) (afterAuthority : List Char) : Option String :=
  match afterAuthority.dropWhile (fun c => !(c = '?' || c = '#')) with
  | '?' :: rest =>
    some (String.mk (percentEncodeQuery special (rest.takeWhile fun c => !(c = '#'))))
  | _ => none

/-- The basic URL parser with no base URL, after the scheme. -/
def parseAfterScheme (unicodeToASCII : UnicodeToASCII) (scheme : String)
    (rest : List Char) : Option URL :=
  if scheme = "file" then
    match rest with
    | a :: b :: rest2 =>
      if isSlash a && isSlash b then
        let hostText := rest2.takeWhile fun c => !(endsAuthority true c)
        let after := rest2.dropWhile fun c => !(endsAuthority true c)
        if isWindowsDriveLetter hostText then
          some { scheme := scheme, host := none, query := parseQuery true rest2 }
        else if hostText.isEmpty then
          some { scheme := scheme, host := some .empty, query := parseQuery true after }
        else
          match parseHost unicodeToASCII false hostText with
          | none => none
          | some h =>
            some { scheme := scheme,
                   host := some (if h = .domain "localhost" then .empty else h),
                   query := parseQuery true after }
      else some { scheme := scheme, host := none, query := parseQuery true rest }
    | _ => some { scheme := scheme, host := none, query := parseQuery true rest }
  else if isSpecialScheme scheme then
    let body := rest.dropWhile isSlash
    match parseAuthority unicodeToASCII true
        (body.takeWhile fun c => !(endsAuthority true c)) with
    | none => none
    | some h =>
      some { scheme := scheme, host := some h,
             query := parseQuery true (body.dropWhile fun c => !(endsAuthority true c)) }
  else
    match rest with
    | '/' :: '/' :: body =>
      match parseAuthority unicodeToASCII false
          (body.takeWhile fun c => !(endsAuthority false c)) with
      | none => none
      | some h =>
        some { scheme := scheme, host := some h,
               query := parseQuery false (body.dropWhile fun c => !(endsAuthority false c)) }
    | _ => some { scheme := scheme, host := none, query := parseQuery false rest }

/-- The basic URL parser on a string, with no base URL: `none` is failure. -/
def URL.parse (unicodeToASCII : UnicodeToASCII) (input : String) : Option URL :=
  match parseScheme (cleanURLInput input.data) with
  | none => none
  | some (scheme, rest) => parseAfterScheme unicodeToASCII (String.mk scheme) rest

/-- The constructor `new URL(url)`: throws a `TypeError` when parsing fails. -/
def URL.new (unicodeToASCII : UnicodeToASCII) (url : String) : Except JsError URL :=
  match URL.parse unicodeToASCII url with
  | none => .error (.typeError "Invalid URL")
  | some u => .ok u

/-! ## URLSearchParams -/

/-- Split a byte sequence on a separator byte. -/
def splitBytes (sep : Nat) : List Nat → List Nat → List (List Nat)
  | [], acc => [acc.reverse]
  | b :: rest, acc =>
    if b = sep then acc.reverse :: splitBytes sep rest [] else splitBytes sep rest (b :: acc)

/-- Decode one side of a name-value pair: `+` is a space, then percent-decode
and UTF-8 decode without BOM. -/
def decodeFormComponent (bs : List Nat) : String :=
  String.mk (utf8Decode (percentDecode (bs.map fun b => if b = 0x2B then 0x20 else b)))

/-- The `application/x-www-form-urlencoded` parser. -/
def parseUrlencoded (input : List Nat) : List (String × String) :=
  (splitBytes 0x26 input []).filterMap fun bytes =>
    if bytes.isEmpty then none
    else
      some (decodeFormComponent (bytes.takeWhile fun b => !(b = 0x3D)),
            decodeFormComponent ((bytes.dropWhile fun b => !(b = 0x3D)).drop 1))

/-- The getter `url.searchParams`: the list of name-value pairs parsed from
the query (empty for a null query). -/
def URL.searchParams (u : URL) : List (String × String) :=
  match u.query with
  | none => []
  | some q => parseUrlencoded (utf8Encode q.data)

/-- The method `URLSearchParams.get(name)`: the value of the first pair whose
name is `name`, or `null`. -/
def URLSearchParams.get : List (String × String) → String → JsValue
  | [], _ => .null
  | (n, v) :: rest, name => if n = name then .str v else URLSearchParams.get rest name

/-! ## The page: `getYouTubeEmbedUrl` -/

/-- Characters of a video identifier: ASCII letters, digits, `-` and `_`. -/
def isVideoIdChar (c : Char) : Bool :=
  isASCIIAlpha c || isASCIIDigit c || c.toNat = 0x2D || c.toNat = 0x5F

/-- The function `getYouTubeEmbedUrl`: the argument becomes a string for the
URL constructor, whose failure is not caught; the template literal applies
`ToString` to `videoId`. The first argument is the Unicode operation of the
host the URL constructor runs on. -/
def getYouTubeEmbedUrl (unicodeToASCII : UnicodeToASCII) (url : JsValue) :
    Except JsError String :=
  match URL.new unicodeToASCII url.toJsString with
  | .error e => .error e
  | .ok u =>
    let videoId := URLSearchParams.get u.searchParams "v"
    .ok ("https://www.youtube.com/embed/" ++ videoId.toJsString ++ "?autoplay=1&mute=1")

/-! ## The page: state, handlers and what is displayed -/

/-- A DOM element, by its identity. -/
structure DomElement where
  id : String
  deriving DecidableEq, Repr

/-- The options object passed to `scrollIntoView`. -/
structure ScrollOptions where
  behavior : String
  deriving DecidableEq, Repr

/-- The component instance together with the host state its handlers touch:
`selectedLang` is the `useState` cell, `apiBoxRef` is `apiBoxRef.current`
(`none` is `null`), `clipboard` is the text held by the system clipboard and
`scrollRequests` records the `scrollIntoView` calls received by elements. -/
structure Page where
  selectedLang : String
  apiBoxRef : Option DomElement
  clipboard : Option String
  scrollRequests : List (DomElement × ScrollOptions)
  deriving DecidableEq, Repr

/-- The first render: `useState("Node.js")`, `useRef(null)`. -/
def Page.initial : Page :=
  { selectedLang := "Node.js", apiBoxRef := none, clipboard := none, scrollRequests := [] }

/-- The state setter `setSelectedLang`. -/
def setSelectedLang (lang : String) (p : Page) : Page :=
  { p with selectedLang := lang }

/-- Mounting attaches the usage panel to `apiBoxRef` (`ref={apiBoxRef}`). -/
def mount (panel : DomElement) (p : Page) : Page :=
  { p with apiBoxRef := some panel }

/-- The host call `navigator.clipboard.writeText(data)`: the argument becomes a
string and a granted write stores it as the clipboard text. -/
def Clipboard.writeText (data : JsValue) (p : Page) : Page :=
  { p with clipboard := some data.toJsString }

/-- The host call `element.scrollIntoView(options)`. -/
def DomElement.scrollIntoView (el : DomElement) (options : ScrollOptions) (p : Page) : Page :=
  { p with scrollRequests := p.scrollRequests ++ [(el, options)] }

/-- The handler `handleCopy`. -/
def handleCopy (text : JsValue) (p : Page) : Except JsError Page :=
  .ok (Clipboard.writeText text p)

/-- The handler `handleStartClick`: the optional call does nothing on a null
reference. -/
def handleStartClick (p : Page) : Except JsError Page :=
  match p.apiBoxRef with
  | none => .ok p
  | some el => .ok (el.scrollIntoView { behavior := "smooth" } p)

/-- The click events the rendered page offers. -/
inductive Event where
  | startClick : Event
  | copyUrlClick : Event
  | tabClick (lang : String) : Event
  | copyCodeClick : Event
  deriving DecidableEq, Repr

/-- A tab exists for each key of `usageSnippets`; the three buttons are always
rendered. -/
def Event.offered : Event → Bool
  | .tabClick lang => decide (lang ∈ Object.keys usageSnippets)
  | _ => true

/-- The `onClick` handlers of the page. -/
def dispatch (e : Event) (p : Page) : Except JsError Page :=
  match e with
  | .startClick => handleStartClick p
  | .copyUrlClick => handleCopy (.str apiBaseUrl) p
  | .tabClick lang => .ok (setSelectedLang lang p)
  | .copyCodeClick => handleCopy (usageSnippets.get p.selectedLang) p

/-- What the page displays, as far as it depends on data or state. -/
structure View where
  trailerSrc : String
  sampleJson : Option String
  baseUrlBox : String
  tabs : List String
  activeTabs : List String
  snippetPanel : JsValue
  explanation : String

/-- The render function of `ApiPromoPage`; a throw while rendering (the
trailer link not parsing) is a failed render. The first argument is the
Unicode operation of the host the URL constructor runs on. -/
def render (unicodeToASCII : UnicodeToASCII) (p : Page) : Except JsError View :=
  match getYouTubeEmbedUrl unicodeToASCII (JsObject.get demoMovie "trailerLink") with
  | .error e => .error e
  | .ok src =>
    .ok { trailerSrc := src
          sampleJson := JSON.stringify (.obj demoMovie) 2
          baseUrlBox := apiBaseUrl
          tabs := Object.keys usageSnippets
          activeTabs := (Object.keys usageSnippets).filter fun lang => p.selectedLang = lang
          snippetPanel := usageSnippets.get p.selectedLang
          explanation :=
            "Use the above code snippet in your " ++ p.selectedLang
              ++ " project to fetch data from the Movie API." }

/-- States the page can be in: the first render, the mounted page, and what
follows from clicks the page offers. -/
inductive Reachable : Page → Prop where
  | initial : Reachable Page.initial
  | mount (panel : DomElement) {p : Page} : Reachable p → Reachable (mount panel p)
  | click (e : Event) {p q : Page} :
      Reachable p → e.offered = true → dispatch e p = .ok q → Reachable q

/-- Clicking the tabs `langs` one after the other. -/
def selectAll (langs : List String) (p : Page) : Page :=
  langs.foldl (fun q lang => setSelectedLang lang q) p

/-! ## The button component -/

/-- Values of JSX attributes: data, an event handler, or child content. -/
inductive PropValue where
  | data (v : JsValue) : PropValue
  | handler (e : Event) : PropValue
  | text (s : String) : PropValue

/-- A props object. -/
abbrev Props := List (String × PropValue)

/-- A JSX element: the tag, the attributes after spreads and explicit
attributes were applied in order, and the child expression (`none` is
`undefined`). -/
structure JsxElement where
  tag : String
  attributes : Props
  children : Option PropValue

/-- The component `Button`: `children` is taken out of the props, the rest is
spread onto the `button` and `className` is set after the spread. -/
def Button (allProps : Props) : JsxElement :=
  let children := ownGet allProps "children"
  let props := ownRemove allProps "children"
  { tag := "button"
    attributes := ownSet props "className"
      (.data (.str "bg-blue-600 hover:bg-blue-700 text-white font-semibold py-2 px-6 rounded-lg shadow-md transition duration-200"))
    children := children }

/-- The props `ApiPromoPage` passes to its `Button`. -/
def startButtonProps : Props :=
  [ ("className", .data (.str "bg-gradient-to-r from-pink-500 to-violet-500 text-white px-6 py-3 text-lg font-semibold rounded-full hover:scale-105 transition transform")),
    ("onClick", .handler .startClick),
    ("children", .text "Start Using API ➜") ]

/-! ## Facts about `getYouTubeEmbedUrl` -/

/-- On a URL that parses, the result is the embed URL built from what
`searchParams.get("v")` returns. -/
theorem getYouTubeEmbedUrl_of_parse (toASCII : UnicodeToASCII) (u : String) (parsed : URL)
    (h : URL.parse toASCII u = some parsed) :
    getYouTubeEmbedUrl toASCII (.str u) =
      .ok ("https://www.youtube.com/embed/"
        ++ (URLSearchParams.get parsed.searchParams "v").toJsString ++ "?autoplay=1&mute=1") := by
  simp [getYouTubeEmbedUrl, URL.new, JsValue.toJsString, h]

/-- On a string that does not parse, the `TypeError` of the constructor
propagates. -/
theorem getYouTubeEmbedUrl_of_failure (toASCII : UnicodeToASCII) (u : String) (h : URL.parse toASCII u = none) :
    getYouTubeEmbedUrl toASCII (.str u) = .error (.typeError "Invalid URL") := by
  simp [getYouTubeEmbedUrl, URL.new, JsValue.toJsString, h]

/-- The method `get` returns the value of the first pair with the name. -/
theorem URLSearchParams.get_first (name value : String) (before after : List (String × String))
    (h : ∀ x ∈ before, x.1 ≠ name) :
    URLSearchParams.get (before ++ (name, value) :: after) name = .str value := by
  induction before with
  | nil => simp [URLSearchParams.get]
  | cons x rest ih =>
    obtain ⟨n, v⟩ := x
    have hn : n ≠ name := h (n, v) (by simp)
    have hrest : ∀ y ∈ rest, y.1 ≠ name := fun y hy => h y (by simp [hy])
    simp [URLSearchParams.get, hn, ih hrest]

/-- The method `get` returns `null` when no pair has the name. -/
theorem URLSearchParams.get_absent (name : String) (params : List (String × String))
    (h : ∀ x ∈ params, x.1 ≠ name) :
    URLSearchParams.get params name = .null := by
  induction params with
  | nil => simp [URLSearchParams.get]
  | cons x rest ih =>
    obtain ⟨n, v⟩ := x
    have hn : n ≠ name := h (n, v) (by simp)
    have hrest : ∀ y ∈ rest, y.1 ≠ name := fun y hy => h y (by simp [hy])
    simp [URLSearchParams.get, hn, ih hrest]

/-! ## The watch URLs of the video host -/

/-- The code point of a video identifier character. -/
theorem videoIdChar_toNat (c : Char) (h : isVideoIdChar c = true) :
    (0x30 ≤ c.toNat ∧ c.toNat ≤ 0x39) ∨ (0x41 ≤ c.toNat ∧ c.toNat ≤ 0x5A)
      ∨ (0x61 ≤ c.toNat ∧ c.toNat ≤ 0x7A) ∨ c.toNat = 0x2D ∨ c.toNat = 0x5F := by
  simp only [isVideoIdChar, isASCIIAlpha, isASCIIDigit, Bool.or_eq_true, Bool.and_eq_true,
    decide_eq_true_eq] at h
  omega

/-- A video identifier character is its own UTF-8 encoding. -/
theorem utf8EncodeChar_videoId (c : Char) (h : isVideoIdChar c = true) :
    utf8EncodeChar c = [c.toNat] := by
  have hn := videoIdChar_toNat c h
  have : c.toNat < 0x80 := by omega
  simp [utf8EncodeChar, this]

/-- A video identifier character is outside the query percent-encode set. -/
theorem inQueryPercentEncodeSet_videoId (c : Char) (h : isVideoIdChar c = true) :
    inQueryPercentEncodeSet true c = false := by
  have hn := videoIdChar_toNat c h
  have h1 : ¬ c.toNat ≤ 0x1F := by omega
  have h2 : ¬ 0x7E < c.toNat := by omega
  have h3 : c ≠ ' ' := by rintro rfl; revert hn; decide
  have h4 : c ≠ '"' := by rintro rfl; revert hn; decide
  have h5 : c ≠ '#' := by rintro rfl; revert hn; decide
  have h6 : c ≠ '<' := by rintro rfl; revert hn; decide
  have h7 : c ≠ '>' := by rintro rfl; revert hn; decide
  have h8 : c ≠ '\x27' := by rintro rfl; revert hn; decide
  simp [inQueryPercentEncodeSet, h1, h2, h3, h4, h5, h6, h7, h8]

/-- The query percent-encoding leaves a video identifier as it is. -/
theorem percentEncodeQuery_videoId (cs : List Char) (h : ∀ c ∈ cs, isVideoIdChar c = true) :
    percentEncodeQuery true cs = cs := by
  induction cs with
  | nil => rfl
  | cons c rest ih =>
    have hc := inQueryPercentEncodeSet_videoId c (h c (by simp))
    have hrest := ih (fun d hd => h d (by simp [hd]))
    simp only [percentEncodeQuery, List.flatMap_cons] at hrest ⊢
    simp [hc, hrest]

/-- The encoder on a video identifier: one byte per character. -/
theorem utf8Encode_videoId (cs : List Char) (h : ∀ c ∈ cs, isVideoIdChar c = true) :
    utf8Encode cs = cs.map Char.toNat := by
  induction cs with
  | nil => rfl
  | cons c rest ih =>
    have hc := utf8EncodeChar_videoId c (h c (by simp))
    have hrest := ih (fun d hd => h d (by simp [hd]))
    simp only [utf8Encode, List.flatMap_cons] at hrest ⊢
    simp [hc, hrest]

/-- No separator byte, no split. -/
theorem splitBytes_none (sep : Nat) (bs acc : List Nat) (h : ∀ b ∈ bs, b ≠ sep) :
    splitBytes sep bs acc = [acc.reverse ++ bs] := by
  induction bs generalizing acc with
  | nil => simp [splitBytes]
  | cons b rest ih =>
    have hb : b ≠ sep := h b (by simp)
    have hrest := ih (b :: acc) (fun d hd => h d (by simp [hd]))
    simp [splitBytes, hb, hrest]

/-- No percent sign, nothing to decode. -/
theorem percentDecode_plain (bs : List Nat) (h : ∀ b ∈ bs, b ≠ 0x25) :
    percentDecode bs = bs := by
  induction bs with
  | nil => rfl
  | cons b rest ih =>
    have hb : b ≠ 0x25 := h b (by simp)
    have hrest := ih (fun d hd => h d (by simp [hd]))
    match rest, hrest with
    | [], _ => simp [percentDecode]
    | [x], _ => simp [percentDecode]
    | x :: y :: more, hrest => simp [percentDecode, hb, hrest]

/-- The decoder on the bytes of a video identifier gives the identifier back. -/
theorem utf8DecodeFrom_videoId (cs acc : List Char) (h : ∀ c ∈ cs, isVideoIdChar c = true) :
    utf8DecodeFrom Utf8State.start (cs.map Char.toNat) acc = acc.reverse ++ cs := by
  induction cs generalizing acc with
  | nil => simp [utf8DecodeFrom, Utf8State.start]
  | cons c rest ih =>
    have hn := videoIdChar_toNat c (h c (by simp))
    have hlt : c.toNat ≤ 0x7F := by omega
    have hrest := ih (c :: acc) (fun d hd => h d (by simp [hd]))
    have hlead : utf8Lead c.toNat = (Utf8State.start, [c]) := by
      simp [utf8Lead, hlt, Char.ofNat_toNat]
    simp only [List.map_cons, utf8DecodeFrom]
    rw [hlead]
    simpa [Utf8State.start] using hrest

/-- Nothing is dropped from a list none of whose elements satisfies the test. -/
theorem dropWhile_none {α : Type} (p : α → Bool) (l : List α) (h : ∀ x ∈ l, p x = false) :
    l.dropWhile p = l := by
  cases l with
  | nil => rfl
  | cons x rest => simp [List.dropWhile, h x (by simp)]

/-- Input without C0 controls and spaces is left as it is by the first step
of the parser. -/
theorem cleanURLInput_plain (l : List Char) (h : ∀ c ∈ l, isC0ControlOrSpace c = false) :
    cleanURLInput l = l := by
  have htab : ∀ c ∈ l, (!isASCIITabOrNewline c) = true := by
    intro c hc
    have hc0 := h c hc
    simp only [isC0ControlOrSpace, decide_eq_false_iff_not] at hc0
    have h1 : c ≠ '\t' := by rintro rfl; revert hc0; decide
    have h2 : c ≠ '\n' := by rintro rfl; revert hc0; decide
    have h3 : c ≠ '\r' := by rintro rfl; revert hc0; decide
    simp [isASCIITabOrNewline, h1, h2, h3]
  unfold cleanURLInput
  rw [dropWhile_none _ l h, dropWhile_none _ l.reverse (fun c hc => h c (List.mem_reverse.1 hc)),
    List.reverse_reverse]
  exact List.filter_eq_self.2 htab

/-- A video identifier character is no C0 control or space. -/
theorem isC0ControlOrSpace_videoId (c : Char) (h : isVideoIdChar c = true) :
    isC0ControlOrSpace c = false := by
  have hn := videoIdChar_toNat c h
  simp only [isC0ControlOrSpace, decide_eq_false_iff_not]
  omega

/-- The basic URL parser on the text of a watch URL followed by anything: the
query is what the query state makes of the text after `?`. -/
theorem parse_watch_chars (toASCII : UnicodeToASCII) (tail : List Char) :
    (match parseScheme ("https://www.youtube.com/watch?v=".data ++ tail) with
      | none => none
      | some (scheme, rest) => parseAfterScheme toASCII (String.mk scheme) rest)
    = some { scheme := "https", host := some (.domain "www.youtube.com"),
             query := some (String.mk (percentEncodeQuery true
               (('v' :: '=' :: tail).takeWhile fun c => !(c = '#')))) } := by
  rfl

/-- A watch URL with a plain video identifier parses, and its query is `v=`
followed by the identifier. -/
theorem URL.parse_watch (toASCII : UnicodeToASCII) (id : String) (h : ∀ c ∈ id.data, isVideoIdChar c = true) :
    URL.parse toASCII ("https://www.youtube.com/watch?v=" ++ id) =
      some { scheme := "https", host := some (.domain "www.youtube.com"), query := some ("v=" ++ id) } := by
  have hclean : cleanURLInput ("https://www.youtube.com/watch?v=".data ++ id.data)
      = "https://www.youtube.com/watch?v=".data ++ id.data := by
    have hpre : ∀ c ∈ "https://www.youtube.com/watch?v=".data, isC0ControlOrSpace c = false := by
      decide
    apply cleanURLInput_plain
    intro c hc
    rcases List.mem_append.1 hc with hc | hc
    · exact hpre c hc
    · exact isC0ControlOrSpace_videoId c (h c hc)
  have htake : (('v' :: '=' :: id.data).takeWhile fun c => !(c = '#')) = 'v' :: '=' :: id.data := by
    apply List.takeWhile_eq_self_iff.2
    intro c hc
    have hq : ∀ d ∈ ('v' :: '=' :: id.data), d ≠ '#' := by
      intro d hd
      rcases List.mem_cons.1 hd with rfl | hd
      · decide
      rcases List.mem_cons.1 hd with rfl | hd
      · decide
      · have hn := videoIdChar_toNat d (h d hd)
        rintro rfl
        revert hn
        decide
    simp [hq c hc]
  have hall : ∀ c ∈ ('v' :: '=' :: id.data), inQueryPercentEncodeSet true c = false := by
    intro c hc
    rcases List.mem_cons.1 hc with rfl | hc
    · decide
    rcases List.mem_cons.1 hc with rfl | hc
    · decide
    · exact inQueryPercentEncodeSet_videoId c (h c hc)
  have henc : percentEncodeQuery true ('v' :: '=' :: id.data) = 'v' :: '=' :: id.data := by
    have hid := percentEncodeQuery_videoId id.data h
    simp only [percentEncodeQuery, List.flatMap_cons] at hid ⊢
    rw [hid]
    rfl
  unfold URL.parse
  rw [String.data_append, hclean, parse_watch_chars toASCII, htake, henc]
  rfl

/-- Decoding the bytes of a video identifier as a form component gives the
identifier. -/
theorem decodeFormComponent_videoId (id : String) (h : ∀ c ∈ id.data, isVideoIdChar c = true) :
    decodeFormComponent (id.data.map Char.toNat) = id := by
  have hbytes : ∀ b ∈ id.data.map Char.toNat, b ≠ 0x2B ∧ b ≠ 0x25 := by
    intro b hb
    obtain ⟨c, hc, rfl⟩ := List.mem_map.1 hb
    have hn := videoIdChar_toNat c (h c hc)
    omega
  have hplus : (id.data.map Char.toNat).map (fun b => if b = 0x2B then 0x20 else b)
      = id.data.map Char.toNat := by
    conv_rhs => rw [← List.map_id (id.data.map Char.toNat)]
    apply List.map_congr_left
    intro b hb
    simp [(hbytes b hb).1]
  unfold decodeFormComponent
  rw [hplus, percentDecode_plain _ (fun b hb => (hbytes b hb).2)]
  unfold utf8Decode
  rw [utf8DecodeFrom_videoId id.data [] h]
  rfl

/-- The query parameters of a watch URL with a plain video identifier: the
single pair `v`, identifier. -/
theorem searchParams_watch (id : String) (h : ∀ c ∈ id.data, isVideoIdChar c = true) :
    URL.searchParams
      { scheme := "https", host := some (.domain "www.youtube.com"), query := some ("v=" ++ id) }
      = [("v", id)] := by
  have hbytes : utf8Encode ("v=" ++ id).data = 0x76 :: 0x3D :: id.data.map Char.toNat := by
    have hid := utf8Encode_videoId id.data h
    have hdata : ("v=" ++ id).data = 'v' :: '=' :: id.data := by
      rw [String.data_append]
      rfl
    rw [hdata]
    simp only [utf8Encode, List.flatMap_cons] at hid ⊢
    rw [hid]
    rfl
  have hsep : ∀ b ∈ 0x76 :: 0x3D :: id.data.map Char.toNat, b ≠ 0x26 := by
    intro b hb
    rcases List.mem_cons.1 hb with rfl | hb
    · decide
    rcases List.mem_cons.1 hb with rfl | hb
    · decide
    · obtain ⟨c, hc, rfl⟩ := List.mem_map.1 hb
      have hn := videoIdChar_toNat c (h c hc)
      omega
  simp only [URL.searchParams, parseUrlencoded]
  rw [hbytes, splitBytes_none _ _ _ hsep]
  simp only [List.reverse_nil, List.nil_append, List.filterMap_cons, List.filterMap_nil,
    List.isEmpty_cons, Bool.false_eq_true, if_false]
  have htake : (List.takeWhile (fun b => !decide (b = 0x3D))
      (0x76 :: 0x3D :: id.data.map Char.toNat)) = [0x76] := by
    simp [List.takeWhile]
  have hdrop : (List.dropWhile (fun b => !decide (b = 0x3D))
      (0x76 :: 0x3D :: id.data.map Char.toNat)).drop 1 = id.data.map Char.toNat := by
    simp [List.dropWhile]
  rw [htake, hdrop, decodeFormComponent_videoId id h]
  rfl

/-- On a watch URL with a plain video identifier the result is the embed URL
of that identifier. -/
theorem getYouTubeEmbedUrl_watch (toASCII : UnicodeToASCII) (id : String) (h : ∀ c ∈ id.data, isVideoIdChar c = true) :
    getYouTubeEmbedUrl toASCII (.str ("https://www.youtube.com/watch?v=" ++ id)) =
      .ok ("https://www.youtube.com/embed/" ++ id ++ "?autoplay=1&mute=1") := by
  rw [getYouTubeEmbedUrl_of_parse toASCII _ _ (URL.parse_watch toASCII id h), searchParams_watch id h]
  rfl

/-- C1: for a URL that parses and whose query parameters hold a pair named `v`
with value `id`, no pair before it being named `v`, `getYouTubeEmbedUrl`
returns exactly `https://www.youtube.com/embed/` ++ id ++ `?autoplay=1&mute=1`;
such are the watch URLs `https://www.youtube.com/watch?v=` ++ id for every
id made of letters, digits, `-` and `_`; and on the trailer link of
`demoMovie` the result is the embed URL of `JaV7mmc9HGw`. This holds whatever
the Unicode operation of the host. -/
theorem getYouTubeEmbedUrl_v_param (toASCII : UnicodeToASCII) :
    (∀ (u : String) (parsed : URL) (id : String) (before after : List (String × String)),
      URL.parse toASCII u = some parsed →
      parsed.searchParams = before ++ ("v", id) :: after →
      (∀ x ∈ before, x.1 ≠ "v") →
      getYouTubeEmbedUrl toASCII (.str u) =
        .ok ("https://www.youtube.com/embed/" ++ id ++ "?autoplay=1&mute=1"))
    ∧ (∀ id : String, (∀ c ∈ id.data, isVideoIdChar c = true) →
        getYouTubeEmbedUrl toASCII (.str ("https://www.youtube.com/watch?v=" ++ id)) =
          .ok ("https://www.youtube.com/embed/" ++ id ++ "?autoplay=1&mute=1"))
    ∧ JsObject.get demoMovie "trailerLink" = .str "https://www.youtube.com/watch?v=JaV7mmc9HGw"
    ∧ getYouTubeEmbedUrl toASCII (JsObject.get demoMovie "trailerLink") =
        .ok "https://www.youtube.com/embed/JaV7mmc9HGw?autoplay=1&mute=1" := by
  refine ⟨?_, getYouTubeEmbedUrl_watch toASCII, by rfl, by rfl⟩
  intro u parsed id before after hparse hparams hfirst
  rw [getYouTubeEmbedUrl_of_parse toASCII u parsed hparse, hparams,
    URLSearchParams.get_first "v" id before after hfirst]
  rfl

/-- C1, at a URL with an earlier parameter, an encoded value and a second
`v`: the first `v` is the one that counts. -/
theorem getYouTubeEmbedUrl_v_param_witness :
    getYouTubeEmbedUrl (fun _ => none) (.str "https://www.youtube.com/watch?t=10&v=a+b%21&v=second#v=third") =
      .ok ("https://www.youtube.com/embed/" ++ "a b!" ++ "?autoplay=1&mute=1") :=
  (getYouTubeEmbedUrl_v_param (fun _ => none)).1
    "https://www.youtube.com/watch?t=10&v=a+b%21&v=second#v=third"
    { scheme := "https", host := some (.domain "www.youtube.com"), query := some "t=10&v=a+b%21&v=second" }
    "a b!" [("t", "10")] [("v", "second")] (by rfl) (by rfl) (by decide)

/-- C2: for a URL that parses and whose query parameters hold no pair named
`v`, `getYouTubeEmbedUrl` does not throw and the identifier segment is the
literal `null`, the same for every such URL, whatever the Unicode operation
of the host. -/
theorem getYouTubeEmbedUrl_without_v (toASCII : UnicodeToASCII) (u : String) (parsed : URL)
    (hparse : URL.parse toASCII u = some parsed)
    (habsent : ∀ x ∈ parsed.searchParams, x.1 ≠ "v") :
    getYouTubeEmbedUrl toASCII (.str u) = .ok "https://www.youtube.com/embed/null?autoplay=1&mute=1" := by
  rw [getYouTubeEmbedUrl_of_parse toASCII u parsed hparse,
    URLSearchParams.get_absent "v" parsed.searchParams habsent]
  rfl

/-- C2, at a URL with a query that has other parameters only. -/
theorem getYouTubeEmbedUrl_without_v_witness :
    getYouTubeEmbedUrl (fun _ => none) (.str "https://www.youtube.com/watch?list=PL1&index=2") =
      .ok "https://www.youtube.com/embed/null?autoplay=1&mute=1" :=
  getYouTubeEmbedUrl_without_v (fun _ => none) "https://www.youtube.com/watch?list=PL1&index=2"
    { scheme := "https", host := some (.domain "www.youtube.com"), query := some "list=PL1&index=2" }
    (by rfl) (by decide)

/-! ## Which strings the URL constructor rejects -/

/-- Without a colon the scheme state never finishes. -/
theorem parseSchemeRest_no_colon (cs acc : List Char) (h : ':' ∉ cs) :
    parseSchemeRest cs acc = none := by
  induction cs generalizing acc with
  | nil => rfl
  | cons c rest ih =>
    have hc : c ≠ ':' := fun hc => h (by simp [hc])
    have hrest : ':' ∉ rest := fun hr => h (by simp [hr])
    unfold parseSchemeRest
    simp only [hc, if_false]
    split
    · exact ih _ hrest
    · rfl

/-- Without a colon there is no scheme. -/
theorem parseScheme_no_colon (cs : List Char) (h : ':' ∉ cs) : parseScheme cs = none := by
  cases cs with
  | nil => rfl
  | cons c rest =>
    have hrest : ':' ∉ rest := fun hr => h (by simp [hr])
    show (if isASCIIAlpha c = true then parseSchemeRest rest [asciiLower c] else none) = none
    rw [parseSchemeRest_no_colon _ _ hrest]
    simp

/-- Cleaning the input adds no character. -/
theorem mem_of_mem_cleanURLInput (c : Char) (cs : List Char) (h : c ∈ cleanURLInput cs) :
    c ∈ cs := by
  unfold cleanURLInput at h
  have h1 := (List.mem_filter.1 h).1
  have h2 := List.mem_reverse.1 h1
  have h3 := (List.dropWhile_sublist _).subset h2
  have h4 := List.mem_reverse.1 h3
  exact (List.dropWhile_sublist _).subset h4

/-- A string without a colon does not parse: it has no scheme and there is
no base URL. -/
theorem URL.parse_no_colon (toASCII : UnicodeToASCII) (s : String) (h : ':' ∉ s.data) :
    URL.parse toASCII s = none := by
  have hclean : ':' ∉ cleanURLInput s.data := fun hc => h (mem_of_mem_cleanURLInput _ _ hc)
  simp [URL.parse, parseScheme_no_colon _ hclean]

/-- Trailing characters are stripped from the end only: after a text that
ends in a character that stays, what is left still starts with that text. -/
theorem rdropWhile_append_keep (p : Char → Bool) (pre tail : List Char)
    (hpre : (pre.reverse.dropWhile p).reverse = pre) :
    ∃ kept, ((pre ++ tail).reverse.dropWhile p).reverse = pre ++ kept := by
  induction tail using List.reverseRecOn with
  | nil => exact ⟨[], by simpa using hpre⟩
  | append_singleton rest x ih =>
    obtain ⟨kept, hkept⟩ := ih
    by_cases hx : p x = true
    · refine ⟨kept, ?_⟩
      rw [← List.append_assoc, List.reverse_append]
      simpa [List.dropWhile, hx] using hkept
    · refine ⟨rest ++ [x], ?_⟩
      rw [← List.append_assoc, List.reverse_append]
      simp [List.dropWhile, hx]

/-- Cleaning an input that starts with the origin of the video host leaves
that start in place. -/
theorem cleanURLInput_origin (tail : List Char) :
    ∃ kept, cleanURLInput ("https://www.youtube.com/".data ++ tail)
      = "https://www.youtube.com/".data ++ kept := by
  have hdrop : ("https://www.youtube.com/".data ++ tail).dropWhile isC0ControlOrSpace
      = "https://www.youtube.com/".data ++ tail := by
    rfl
  obtain ⟨kept, hkept⟩ := rdropWhile_append_keep isC0ControlOrSpace
    "https://www.youtube.com/".data tail (by rfl)
  refine ⟨kept.filter fun c => !isASCIITabOrNewline c, ?_⟩
  unfold cleanURLInput
  rw [hdrop, hkept, List.filter_append]
  rfl

/-- The basic URL parser on the origin of the video host followed by
anything: it does not fail. -/
theorem parse_origin_chars (toASCII : UnicodeToASCII) (tail : List Char) :
    (match parseScheme ("https://www.youtube.com/".data ++ tail) with
      | none => none
      | some (scheme, rest) => parseAfterScheme toASCII (String.mk scheme) rest)
    = some { scheme := "https", host := some (.domain "www.youtube.com"),
             query := parseQuery true ('/' :: tail) } := by
  rfl

/-- Every string that starts with `https://www.youtube.com/` parses. -/
theorem URL.parse_origin (toASCII : UnicodeToASCII) (t : String) :
    ∃ parsed, URL.parse toASCII ("https://www.youtube.com/" ++ t) = some parsed := by
  obtain ⟨kept, hkept⟩ := cleanURLInput_origin t.data
  refine ⟨{ scheme := "https", host := some (.domain "www.youtube.com"),
            query := parseQuery true ('/' :: kept) }, ?_⟩
  unfold URL.parse
  rw [String.data_append, hkept, parse_origin_chars toASCII kept]

/-- C3: `getYouTubeEmbedUrl` throws exactly when its argument does not parse
as a URL, and returns a string exactly when it does; the throw is the
`TypeError` of the URL constructor. Every string without a colon (no
scheme) throws, among them the trailer link without its scheme; so do URLs
whose host is no host; every string that starts with
`https://www.youtube.com/` returns, as do URLs with an IP address as host.
This holds whatever the Unicode operation of the host. -/
theorem getYouTubeEmbedUrl_throws_iff (toASCII : UnicodeToASCII) :
    (∀ s : String,
      ((∃ e, getYouTubeEmbedUrl toASCII (.str s) = .error e) ↔ URL.parse toASCII s = none)
      ∧ ((∃ r, getYouTubeEmbedUrl toASCII (.str s) = .ok r)
          ↔ ∃ parsed, URL.parse toASCII s = some parsed)
      ∧ (URL.parse toASCII s = none →
          getYouTubeEmbedUrl toASCII (.str s) = .error (.typeError "Invalid URL")))
    ∧ (∀ s : String, ':' ∉ s.data →
        getYouTubeEmbedUrl toASCII (.str s) = .error (.typeError "Invalid URL"))
    ∧ (∀ t : String, ∃ r,
        getYouTubeEmbedUrl toASCII (.str ("https://www.youtube.com/" ++ t)) = .ok r)
    ∧ getYouTubeEmbedUrl toASCII (.str "") = .error (.typeError "Invalid URL")
    ∧ getYouTubeEmbedUrl toASCII (.str "www.youtube.com/watch?v=JaV7mmc9HGw")
        = .error (.typeError "Invalid URL")
    ∧ getYouTubeEmbedUrl toASCII (.str "https://") = .error (.typeError "Invalid URL")
    ∧ getYouTubeEmbedUrl toASCII (.str "https://[zz]/watch?v=x")
        = .error (.typeError "Invalid URL")
    ∧ getYouTubeEmbedUrl toASCII (.str "https://1.2.3.4.5/watch?v=x")
        = .error (.typeError "Invalid URL")
    ∧ getYouTubeEmbedUrl toASCII (.str "https://256.256.256.256/watch?v=x")
        = .error (.typeError "Invalid URL")
    ∧ getYouTubeEmbedUrl toASCII (.str "https://www.youtube.com:99999/watch?v=x")
        = .error (.typeError "Invalid URL")
    ∧ getYouTubeEmbedUrl toASCII (.str "https://www.you tube.com/watch?v=x")
        = .error (.typeError "Invalid URL")
    ∧ (toASCII "xn--".data = none →
        getYouTubeEmbedUrl toASCII (.str "https://xn--/watch?v=x")
          = .error (.typeError "Invalid URL"))
    ∧ getYouTubeEmbedUrl toASCII (.str "https://[::1]/watch?v=x")
        = .ok "https://www.youtube.com/embed/x?autoplay=1&mute=1"
    ∧ getYouTubeEmbedUrl toASCII (.str "https://192.168.0.1:8080/watch?v=x")
        = .ok "https://www.youtube.com/embed/x?autoplay=1&mute=1" := by
  refine ⟨?_, ?_, ?_, by rfl, by rfl, by rfl, by rfl, by rfl, by rfl, by rfl, by rfl, ?_,
    by rfl, by rfl⟩
  · intro s
    cases h : URL.parse toASCII s with
    | none => simp [getYouTubeEmbedUrl_of_failure toASCII s h]
    | some parsed => simp [getYouTubeEmbedUrl_of_parse toASCII s parsed h]
  · intro s hs
    exact getYouTubeEmbedUrl_of_failure toASCII s (URL.parse_no_colon toASCII s hs)
  · intro t
    obtain ⟨parsed, hparsed⟩ := URL.parse_origin toASCII t
    exact ⟨_, getYouTubeEmbedUrl_of_parse toASCII _ parsed hparsed⟩
  · intro hx
    have hform : URL.parse toASCII "https://xn--/watch?v=x" =
        (match parseHost toASCII false "xn--".data with
          | none => none
          | some h => some { scheme := "https", host := some h, query := some "v=x" }) := by
      rfl
    have hhost : parseHost toASCII false "xn--".data =
        (match domainToASCII toASCII "xn--".data with
          | none => none
          | some asciiDomain =>
            if asciiDomain.any isForbiddenDomainCodePoint then none
            else if endsInANumber asciiDomain then
              match parseIPv4 asciiDomain with
              | none => none
              | some address => some (.ipv4 address)
            else some (.domain (String.mk asciiDomain))) := by
      rfl
    have hdomain : domainToASCII toASCII "xn--".data = none := by
      have hplain : isPlainASCIIDomain "xn--".data = false := by rfl
      simp [domainToASCII, hplain, hx]
    have hparse : URL.parse toASCII "https://xn--/watch?v=x" = none := by
      rw [hform, hhost, hdomain]
    exact getYouTubeEmbedUrl_of_failure toASCII _ hparse

/-- C3, at the trailer link without its scheme, which has no colon. -/
theorem getYouTubeEmbedUrl_throws_iff_witness :
    getYouTubeEmbedUrl (fun _ => none) (.str "www.youtube.com/watch?v=JaV7mmc9HGw")
      = .error (.typeError "Invalid URL") :=
  (getYouTubeEmbedUrl_throws_iff (fun _ => none)).2.1 "www.youtube.com/watch?v=JaV7mmc9HGw"
    (by decide)

/-! ## Facts about property lists -/

/-- Reading back the property just written. -/
theorem ownGet_ownSet_same {α : Type} (o : List (String × α)) (key : String) (v : α) :
    ownGet (ownSet o key v) key = some v := by
  induction o with
  | nil => simp [ownSet, ownGet]
  | cons x rest ih =>
    obtain ⟨k, w⟩ := x
    by_cases hk : k = key
    · simp [ownSet, ownGet, hk]
    · simp [ownSet, ownGet, hk, ih]

/-- Writing one property leaves the others as they were. -/
theorem ownGet_ownSet_other {α : Type} (o : List (String × α)) (key other : String) (v : α)
    (h : other ≠ key) : ownGet (ownSet o key v) other = ownGet o other := by
  induction o with
  | nil => simp [ownSet, ownGet, Ne.symm h]
  | cons x rest ih =>
    obtain ⟨k, w⟩ := x
    by_cases hk : k = key
    · subst hk
      simp [ownSet, ownGet, Ne.symm h]
    · by_cases ho : k = other
      · subst ho
        simp [ownSet, ownGet, hk]
      · simp [ownSet, ownGet, hk, ho, ih]

/-- Removing one property leaves the others as they were. -/
theorem ownGet_ownRemove_other {α : Type} (o : List (String × α)) (key other : String)
    (h : other ≠ key) : ownGet (ownRemove o key) other = ownGet o other := by
  induction o with
  | nil => simp [ownRemove, ownGet]
  | cons x rest ih =>
    obtain ⟨k, w⟩ := x
    by_cases hk : k = key
    · subst hk
      simp [ownRemove, ownGet, Ne.symm h, ih]
    · by_cases ho : k = other
      · subst ho
        simp [ownRemove, ownGet, hk]
      · simp [ownRemove, ownGet, hk, ho, ih]

/-- A removed property is gone. -/
theorem ownGet_ownRemove_same {α : Type} (o : List (String × α)) (key : String) :
    ownGet (ownRemove o key) key = none := by
  induction o with
  | nil => simp [ownRemove, ownGet]
  | cons x rest ih =>
    obtain ⟨k, w⟩ := x
    by_cases hk : k = key
    · simp [ownRemove, hk, ih]
    · simp [ownRemove, ownGet, hk, ih]

/-! ## Facts about the page -/

/-- The keys of the catalog, in display order. -/
theorem keys_usageSnippets :
    Object.keys usageSnippets = ["Node.js", "Java", "Django", "PHP", "Go"] := by
  rfl

/-- Membership in the keys of the catalog, spelled out. -/
theorem mem_keys_usageSnippets (L : String) :
    L ∈ Object.keys usageSnippets ↔
      L = "Node.js" ∨ L = "Java" ∨ L = "Django" ∨ L = "PHP" ∨ L = "Go" := by
  rw [keys_usageSnippets]
  simp

/-- The lookup of a key of the catalog is a string. -/
theorem usageSnippets_get_of_mem (L : String) (h : L ∈ Object.keys usageSnippets) :
    ∃ snippet, ownGet usageSnippets L = some (.str snippet)
      ∧ usageSnippets.get L = .str snippet := by
  rcases (mem_keys_usageSnippets L).1 h with h | h | h | h | h <;> subst h <;>
    exact ⟨_, rfl, rfl⟩

/-- The trailer of the demo record. -/
theorem getYouTubeEmbedUrl_demo (toASCII : UnicodeToASCII) :
    getYouTubeEmbedUrl toASCII (JsObject.get demoMovie "trailerLink") =
      .ok "https://www.youtube.com/embed/JaV7mmc9HGw?autoplay=1&mute=1" := by
  rfl

/-- Rendering never fails, and this is what it displays. -/
theorem render_eq (toASCII : UnicodeToASCII) (p : Page) :
    render toASCII p = .ok
      { trailerSrc := "https://www.youtube.com/embed/JaV7mmc9HGw?autoplay=1&mute=1"
        sampleJson := JSON.stringify (.obj demoMovie) 2
        baseUrlBox := apiBaseUrl
        tabs := Object.keys usageSnippets
        activeTabs := (Object.keys usageSnippets).filter fun lang => p.selectedLang = lang
        snippetPanel := usageSnippets.get p.selectedLang
        explanation :=
          "Use the above code snippet in your " ++ p.selectedLang
            ++ " project to fetch data from the Movie API." } := by
  unfold render
  rw [getYouTubeEmbedUrl_demo toASCII]

/-- After a run of tab clicks the selection is the last label clicked. -/
theorem selectAll_append_last (langs : List String) (last : String) (p : Page) :
    selectAll (langs ++ [last]) p = setSelectedLang last (selectAll langs p) := by
  simp [selectAll, List.foldl_append]

/-- Tab clicks touch nothing but the selection. -/
theorem selectAll_frame (langs : List String) (p : Page) :
    (selectAll langs p).apiBoxRef = p.apiBoxRef
      ∧ (selectAll langs p).clipboard = p.clipboard
      ∧ (selectAll langs p).scrollRequests = p.scrollRequests := by
  induction langs generalizing p with
  | nil => simp [selectAll]
  | cons l rest ih =>
    have h := ih (setSelectedLang l p)
    simpa [selectAll, setSelectedLang] using h

/-- The selection after a non-empty run of tab clicks. -/
theorem selectAll_selectedLang (langs : List String) (hne : langs ≠ []) (p : Page) :
    (selectAll langs p).selectedLang = langs.getLast hne := by
  induction langs generalizing p with
  | nil => exact absurd rfl hne
  | cons l rest ih =>
    cases rest with
    | nil => simp [selectAll, setSelectedLang]
    | cons m rest2 =>
      have h := ih (by simp) (setSelectedLang l p)
      simpa [selectAll] using h

/-- C4: for every key L of `usageSnippets`, after the tab for L is clicked the
snippet panel shows exactly `usageSnippets[L]`, a string, and the
explanatory sentence is
`Use the above code snippet in your L project to fetch data from the Movie API.` -/
theorem tab_click_displays_snippet (toASCII : UnicodeToASCII) (L : String) (hL : L ∈ Object.keys usageSnippets)
    (p : Page) :
    ∃ q v snippet,
      (Event.tabClick L).offered = true
      ∧ dispatch (.tabClick L) p = .ok q
      ∧ q = setSelectedLang L p
      ∧ render toASCII q = .ok v
      ∧ ownGet usageSnippets L = some (.str snippet)
      ∧ v.snippetPanel = .str snippet
      ∧ v.explanation =
          "Use the above code snippet in your " ++ L
            ++ " project to fetch data from the Movie API." := by
  obtain ⟨snippet, hown, hget⟩ := usageSnippets_get_of_mem L hL
  refine ⟨setSelectedLang L p, _, snippet, ?_, rfl, rfl, render_eq toASCII _, hown, ?_, rfl⟩
  · simp [Event.offered, hL]
  · simpa [setSelectedLang] using hget

/-- C4, at the PHP tab clicked on the first render. -/
theorem tab_click_displays_snippet_witness :
    ∃ q v snippet,
      (Event.tabClick "PHP").offered = true
      ∧ dispatch (.tabClick "PHP") Page.initial = .ok q
      ∧ q = setSelectedLang "PHP" Page.initial
      ∧ render (fun _ => none) q = .ok v
      ∧ ownGet usageSnippets "PHP" = some (.str snippet)
      ∧ v.snippetPanel = .str snippet
      ∧ v.explanation =
          "Use the above code snippet in your " ++ "PHP"
            ++ " project to fetch data from the Movie API." :=
  tab_click_displays_snippet (fun _ => none) "PHP" (by decide) Page.initial

set_option maxRecDepth 1000000 in
/-- Parsing the text `JSON.stringify(demoMovie, null, 2)` gives a value equal
to `demoMovie`. -/
theorem JSON.parse_stringify_demoMovie :
    (JSON.stringify (.obj demoMovie) 2).map JSON.parse = some (.ok (.obj demoMovie)) := by
  rfl

/-- C5: the sample JSON shown on the page, `JSON.stringify(demoMovie, null, 2)`,
parses back to a value equal to `demoMovie`, whose seven fields are imdbId,
title, releaseDate, trailerLink, poster, genres and backdrops in this order. -/
theorem sample_json_round_trips (toASCII : UnicodeToASCII) :
    ∃ text,
      JSON.stringify (.obj demoMovie) 2 = some text
      ∧ (∀ p : Page, ∃ v, render toASCII p = .ok v ∧ v.sampleJson = some text)
      ∧ JSON.parse text = .ok (.obj demoMovie)
      ∧ Object.keys demoMovie =
          ["imdbId", "title", "releaseDate", "trailerLink", "poster", "genres", "backdrops"] := by
  have h := JSON.parse_stringify_demoMovie
  cases hs : JSON.stringify (.obj demoMovie) 2 with
  | none => simp [hs] at h
  | some text =>
    refine ⟨text, rfl, fun p => ⟨_, render_eq toASCII p, ?_⟩, ?_, rfl⟩
    · simpa using hs
    · simpa [hs] using h

/-- C6: in every reachable state `selectedLang` is a key of `usageSnippets`
and its lookup is a string, never `undefined`; the initial value `Node.js` is
the first key; and from a reachable state every key is one offered tab click
away. -/
theorem selectedLang_is_key (p : Page) (hp : Reachable p) :
    p.selectedLang ∈ Object.keys usageSnippets
    ∧ (∃ snippet, usageSnippets.get p.selectedLang = .str snippet)
    ∧ Page.initial.selectedLang = "Node.js"
    ∧ (Object.keys usageSnippets).head? = some "Node.js"
    ∧ (∀ L ∈ Object.keys usageSnippets, ∃ q,
        (Event.tabClick L).offered = true ∧ dispatch (.tabClick L) p = .ok q
          ∧ Reachable q ∧ q.selectedLang = L) := by
  have hkey : p.selectedLang ∈ Object.keys usageSnippets := by
    induction hp with
    | initial => decide
    | mount panel _ ih => simpa [mount] using ih
    | click e hreach hoff hstep ih =>
      cases e with
      | startClick =>
        rename_i p0 q0
        simp only [dispatch, handleStartClick] at hstep
        cases href : p0.apiBoxRef with
        | none =>
          rw [href] at hstep
          cases hstep
          exact ih
        | some el =>
          rw [href] at hstep
          cases hstep
          simpa [DomElement.scrollIntoView] using ih
      | copyUrlClick =>
        simp only [dispatch, handleCopy] at hstep
        cases hstep
        simpa [Clipboard.writeText] using ih
      | tabClick lang =>
        simp only [dispatch] at hstep
        cases hstep
        simpa [Event.offered, setSelectedLang] using hoff
      | copyCodeClick =>
        simp only [dispatch, handleCopy] at hstep
        cases hstep
        simpa [Clipboard.writeText] using ih
  refine ⟨hkey, ?_, rfl, rfl, ?_⟩
  · obtain ⟨snippet, _, hget⟩ := usageSnippets_get_of_mem _ hkey
    exact ⟨snippet, hget⟩
  · intro L hL
    have hoff : (Event.tabClick L).offered = true := by simp [Event.offered, hL]
    exact ⟨setSelectedLang L p, hoff, rfl, Reachable.click (.tabClick L) hp hoff rfl, rfl⟩

/-- C6, at the state reached by mounting, copying the snippet and clicking
the Go tab. -/
theorem selectedLang_is_key_witness :
    "Go" ∈ Object.keys usageSnippets
    ∧ (∃ snippet, usageSnippets.get "Go" = .str snippet)
    ∧ Page.initial.selectedLang = "Node.js"
    ∧ (Object.keys usageSnippets).head? = some "Node.js"
    ∧ (∀ L ∈ Object.keys usageSnippets, ∃ q,
        (Event.tabClick L).offered = true
          ∧ dispatch (.tabClick L)
              (setSelectedLang "Go"
                (Clipboard.writeText (usageSnippets.get "Node.js")
                  (mount { id := "usage" } Page.initial))) = .ok q
          ∧ Reachable q ∧ q.selectedLang = L) :=
  selectedLang_is_key
    (setSelectedLang "Go"
      (Clipboard.writeText (usageSnippets.get "Node.js") (mount { id := "usage" } Page.initial)))
    (Reachable.click (.tabClick "Go")
      (Reachable.click .copyCodeClick (Reachable.mount { id := "usage" } Reachable.initial)
        rfl rfl)
      (by decide) rfl)

/-- C7: whatever props and children `Button` receives, it renders a `button`
whose `className` is the fixed style, also when the caller passed its own;
every other attribute is forwarded with its value unchanged; the children
are rendered unchanged and are not among the attributes. The page's own
call, which passes a `className`, is such a case. -/
theorem Button_fixed_style (props : Props) :
    (Button props).tag = "button"
    ∧ ownGet (Button props).attributes "className" = some (.data (.str
        "bg-blue-600 hover:bg-blue-700 text-white font-semibold py-2 px-6 rounded-lg shadow-md transition duration-200"))
    ∧ (∀ name, name ≠ "className" → name ≠ "children" →
        ownGet (Button props).attributes name = ownGet props name)
    ∧ (Button props).children = ownGet props "children"
    ∧ ownGet (Button props).attributes "children" = none
    ∧ (∃ own, ownGet startButtonProps "className" = some (.data (.str own))
        ∧ own ≠ "bg-blue-600 hover:bg-blue-700 text-white font-semibold py-2 px-6 rounded-lg shadow-md transition duration-200") := by
  refine ⟨rfl, ?_, ?_, rfl, ?_, ⟨_, rfl, by decide⟩⟩
  · simp [Button, ownGet_ownSet_same]
  · intro name h1 h2
    simp only [Button]
    rw [ownGet_ownSet_other _ _ _ _ h1, ownGet_ownRemove_other _ _ _ h2]
  · simp only [Button]
    rw [ownGet_ownSet_other _ _ _ _ (by decide), ownGet_ownRemove_same]

/-- C7, at the props of the page's `Start Using API` control: the click
handler is forwarded. -/
theorem Button_fixed_style_witness :
    ownGet (Button startButtonProps).attributes "onClick" = ownGet startButtonProps "onClick" :=
  (Button_fixed_style startButtonProps).2.2.1 "onClick" (by decide) (by decide)

/-- C8: `handleCopy(t)` sets the clipboard text to exactly `t` and leaves the
rest of the state as it was; the `Copy` button passes `apiBaseUrl`, the text
of the base-URL box; and when `selectedLang` is a key of the catalog the
`Copy Code` button passes `usageSnippets[selectedLang]`, the text of the
snippet panel. -/
theorem copy_writes_exact_text (toASCII : UnicodeToASCII) :
    (∀ (t : String) (p : Page), handleCopy (.str t) p = .ok { p with clipboard := some t })
    ∧ (∀ p : Page, ∃ v, render toASCII p = .ok v ∧ v.baseUrlBox = apiBaseUrl
        ∧ dispatch .copyUrlClick p = handleCopy (.str v.baseUrlBox) p
        ∧ dispatch .copyUrlClick p = .ok { p with clipboard := some v.baseUrlBox })
    ∧ (∀ p : Page, p.selectedLang ∈ Object.keys usageSnippets →
        ∃ v snippet, render toASCII p = .ok v ∧ v.snippetPanel = .str snippet
          ∧ ownGet usageSnippets p.selectedLang = some (.str snippet)
          ∧ dispatch .copyCodeClick p = handleCopy v.snippetPanel p
          ∧ dispatch .copyCodeClick p = .ok { p with clipboard := some snippet }) := by
  refine ⟨fun t p => rfl, fun p => ⟨_, render_eq toASCII p, rfl, rfl, rfl⟩, ?_⟩
  intro p hp
  obtain ⟨snippet, hown, hget⟩ := usageSnippets_get_of_mem _ hp
  refine ⟨_, snippet, render_eq toASCII p, hget, hown, rfl, ?_⟩
  simp [dispatch, handleCopy, Clipboard.writeText, hget, JsValue.toJsString]

/-- C8, at a text with blanks at both ends, a quote and a backslash, copied
on the first render. -/
theorem copy_writes_exact_text_witness :
    handleCopy (.str "  a \"b\" \\n\t ") Page.initial =
      .ok { Page.initial with clipboard := some "  a \"b\" \\n\t " } :=
  (copy_writes_exact_text (fun _ => none)).1 "  a \"b\" \\n\t " Page.initial

/-- C9: after clicking any non-empty sequence of catalog tabs, from any
state, the snippet shown is `usageSnippets` of the last label, a string, and
only the selection has changed; selecting a label twice is selecting it
once; the catalog has the five keys Node.js, Java, Django, PHP, Go in this
order, and clicking the five and then Node.js again shows what the first
render shows. -/
theorem selection_path_independent (toASCII : UnicodeToASCII) :
    (∀ (langs : List String) (hne : langs ≠ []) (p : Page),
      (∀ L ∈ langs, L ∈ Object.keys usageSnippets) →
      ∃ v snippet, render toASCII (selectAll langs p) = .ok v
        ∧ v.snippetPanel = usageSnippets.get (langs.getLast hne)
        ∧ usageSnippets.get (langs.getLast hne) = .str snippet
        ∧ selectAll langs p = setSelectedLang (langs.getLast hne) p)
    ∧ (∀ (L : String) (p : Page),
        setSelectedLang L (setSelectedLang L p) = setSelectedLang L p)
    ∧ Object.keys usageSnippets = ["Node.js", "Java", "Django", "PHP", "Go"]
    ∧ (∀ p : Page, ∃ v w, render toASCII Page.initial = .ok v
        ∧ render toASCII (selectAll ["Node.js", "Java", "Django", "PHP", "Go", "Node.js"] p) = .ok w
        ∧ w.snippetPanel = v.snippetPanel
        ∧ v.snippetPanel = usageSnippets.get "Node.js") := by
  refine ⟨?_, fun L p => rfl, keys_usageSnippets, fun p => ⟨_, _, render_eq toASCII _, render_eq toASCII _, rfl, rfl⟩⟩
  intro langs hne p hall
  have hsel := selectAll_selectedLang langs hne p
  obtain ⟨h1, h2, h3⟩ := selectAll_frame langs p
  obtain ⟨snippet, _, hget⟩ :=
    usageSnippets_get_of_mem _ (hall _ (List.getLast_mem hne))
  refine ⟨_, snippet, render_eq toASCII _, ?_, hget, ?_⟩
  · simp [hsel]
  · cases hq : selectAll langs p with
    | mk a b c d =>
      rw [hq] at hsel h1 h2 h3
      simp only at hsel h1 h2 h3
      simp [setSelectedLang, hsel, h1, h2, h3]

/-- C9, at the sequence Go, Java, PHP clicked on the first render. -/
theorem selection_path_independent_witness :
    ∃ v snippet, render (fun _ => none) (selectAll ["Go", "Java", "PHP"] Page.initial) = .ok v
      ∧ v.snippetPanel = usageSnippets.get "PHP"
      ∧ usageSnippets.get "PHP" = .str snippet
      ∧ selectAll ["Go", "Java", "PHP"] Page.initial = setSelectedLang "PHP" Page.initial :=
  (selection_path_independent (fun _ => none)).1 ["Go", "Java", "PHP"] (by decide) Page.initial (by decide)

/-- C10: `handleStartClick` never throws; with `apiBoxRef.current` null it
changes nothing and requests no scroll; with the reference set it adds
exactly one `scrollIntoView` request on that element with behavior
`smooth`; `selectedLang` stays as it was in both cases. -/
theorem handleStartClick_safe (p : Page) :
    (∃ q, handleStartClick p = .ok q ∧ q.selectedLang = p.selectedLang
      ∧ q.clipboard = p.clipboard ∧ q.apiBoxRef = p.apiBoxRef)
    ∧ (p.apiBoxRef = none → handleStartClick p = .ok p)
    ∧ (∀ el, p.apiBoxRef = some el →
        handleStartClick p =
          .ok { p with scrollRequests := p.scrollRequests ++ [(el, { behavior := "smooth" })] })
    ∧ dispatch .startClick p = handleStartClick p := by
  cases h : p.apiBoxRef with
  | none => simp [handleStartClick, h, dispatch]
  | some el => simp [handleStartClick, h, dispatch, DomElement.scrollIntoView]

/-- C10, on the first render, where the reference is still null. -/
theorem handleStartClick_safe_witness :
    handleStartClick Page.initial = .ok Page.initial :=
  (handleStartClick_safe Page.initial).2.1 rfl

end MovieApp
